import Mathlib

/-!
Verification of the drone-jira plugin core (package `plugin`).

Go strings are byte sequences; this development models them as Lean
`String`/`List Char`, identifying one byte with one character.  This is
exact on ASCII data, which is all the code under verification inspects.
`strings.ToLower` is modelled on its ASCII fragment, which covers every
literal the source compares against.
-/

namespace DroneJira

/-- ASCII lowering of one character, the fragment of Go `strings.ToLower`
exercised by the source (every comparison literal is ASCII). -/
def asciiLowerChar (c : Char) : Char :=
  if 65 ≤ c.toNat ∧ c.toNat ≤ 90 then Char.ofNat (c.toNat + 32) else c

/-- ASCII lowering of a string. -/
def asciiLower (s : String) : String :=
  ⟨s.data.map asciiLowerChar⟩

/-- The switch body of `toStateEnum` (util.go), taking the already
lowercased scrutinee. -/
def stateEnumOf (ls : String) : String :=
  if ls = "pending" ∨ ls = "waiting" then "pending"
  else if ls = "running" ∨ ls = "in_progress" then "in_progress"
  else if ls = "cancelled" ∨ ls = "killed" ∨ ls = "stopped" ∨ ls = "terminated" then "cancelled"
  else if ls = "failed" ∨ ls = "failure" ∨ ls = "error" ∨ ls = "errored" then "failed"
  else if ls = "rollback" ∨ ls = "rolled_back" then "rolled_back"
  else if ls = "success" ∨ ls = "successful" then "successful"
  else "unknown"

/-- Model of `toStateEnum` (util.go): normalizes the state to the
bitbucket enum, case-insensitively, defaulting to `"unknown"`. -/
def toStateEnum (s : String) : String :=
  stateEnumOf (asciiLower s)

/-- The switch body of `toEnvironmentEnum` (util.go), taking the already
lowercased scrutinee. -/
def environmentEnumOf (ls : String) : String :=
  if ls = "prod" ∨ ls = "production" then "production"
  else if ls = "stage" ∨ ls = "staging" then "staging"
  else if ls = "dev" ∨ ls = "development" then "development"
  else if ls = "testing" ∨ ls = "test" then "testing"
  else "unmapped"

/-- Model of `toEnvironmentEnum` (util.go): normalizes the environment to
the bitbucket enum, case-insensitively, defaulting to `"unmapped"`. -/
def toEnvironmentEnum (s : String) : String :=
  environmentEnumOf (asciiLower s)

/-- The closed output vocabulary of `toStateEnum`. -/
def stateEnumOutputs : List String :=
  ["pending", "in_progress", "cancelled", "failed", "rolled_back", "successful", "unknown"]

/-- The closed output vocabulary of `toEnvironmentEnum`. -/
def environmentEnumOutputs : List String :=
  ["production", "staging", "development", "testing", "unmapped"]

/-- The recognized (lowercased) inputs of `toStateEnum`. -/
def stateEnumInputs : List String :=
  ["pending", "waiting", "running", "in_progress", "cancelled", "killed", "stopped",
   "terminated", "failed", "failure", "error", "errored", "rollback", "rolled_back",
   "success", "successful"]

/-- The recognized (lowercased) inputs of `toEnvironmentEnum`. -/
def environmentEnumInputs : List String :=
  ["prod", "production", "stage", "staging", "dev", "development", "testing", "test"]

/-- `leadsWith pat l` holds when `pat` occurs at the very front of `l`
(Go `strings.HasPrefix` on character lists). -/
def leadsWith : List Char → List Char → Bool
  | [], _ => true
  | _ :: _, [] => false
  | p :: ps, c :: cs => p == c && leadsWith ps cs

/-- `hasSub pat l` holds when `pat` occurs contiguously somewhere in `l`
(Go `strings.Contains` on character lists). -/
def hasSub (pat : List Char) : List Char → Bool
  | [] => leadsWith pat []
  | c :: cs => leadsWith pat (c :: cs) || hasSub pat cs

/-- Characters strictly after the last occurrence of `a` in `l`
(`l` itself reversed-scanned; yields `l` when `a` is absent). -/
def afterLast (a : Char) (l : List Char) : List Char :=
  (l.reverse.takeWhile (fun c => c != a)).reverse

/-- Characters strictly before the last occurrence of `a` in `l`
(yields `[]` when `a` is absent). -/
def beforeLast (a : Char) (l : List Char) : List Char :=
  ((l.reverse.dropWhile (fun c => c != a)).drop 1).reverse

/-- A character the host-validation model accepts (a subset of the set Go
net/url accepts in the host component; inputs refused here model parse
errors, which `ExtractInstanceName` passes through unchanged). -/
def hostCharOk (c : Char) : Bool :=
  c.isAlphanum || "-._~%!$&*+,;=:()[]".toList.contains c

/-- A valid optional port as in Go net/url `validOptionalPort`: empty, or
a colon followed by decimal digits. -/
def portSuffixOk : List Char → Bool
  | [] => true
  | c :: ds => c == ':' && ds.all (fun d => d.isDigit)

/-- Port stripping of Go net/url `splitHostPort`: remove the suffix after
the last colon when it is all digits. -/
def stripPort (hp : List Char) : List Char :=
  if hp.contains ':' ∧ (afterLast ':' hp).all (fun d => d.isDigit)
  then beforeLast ':' hp else hp

/-- Bracket stripping of Go net/url `URL.Hostname` for IPv6 literals. -/
def stripBrackets (h : List Char) : List Char :=
  if leadsWith ['['] h ∧ h.getLast? = some ']' then (h.drop 1).dropLast else h

/-- Hostname of a `host[:port]` component, as Go `URL.Hostname`. -/
def goHostname (hp : List Char) : List Char :=
  stripBrackets (stripPort hp)

/-- Model of Go net/url `parseHost` followed by `URL.Hostname` on a
`host[:port]` component: validate host characters, the bracket form and
the port, then drop the port and the brackets.  `none` models a parse
error. -/
def parseHostPort (hp : List Char) : Option (List Char) :=
  if ¬ hp.all hostCharOk then none
  else if leadsWith ['['] hp then
    if ¬ hp.contains ']' then none
    else if ¬ portSuffixOk (afterLast ']' hp) then none
    else some (goHostname hp)
  else if hp.contains ':' ∧ ¬ (afterLast ':' hp).all (fun d => d.isDigit) then none
  else some (goHostname hp)

/-- Model of Go net/url authority parsing (`parseAuthority`): strip
userinfo at the last `@`, then parse the `host[:port]` component. -/
def parseHostAuthority (auth : List Char) : Option (List Char) :=
  parseHostPort (if auth.contains '@' then afterLast '@' auth else auth)

/-- A valid URL scheme as in Go net/url `getScheme`: a letter followed by
letters, digits, `+`, `-`, `.`. -/
def schemeOk : List Char → Bool
  | [] => false
  | c :: cs =>
      c.isAlpha && cs.all (fun d => d.isAlpha || d.isDigit || d == '+' || d == '-' || d == '.')

/-- What remains of a URL once a valid scheme before the first colon is
stripped (Go net/url `getScheme`); the whole input when no valid scheme
is present. -/
def afterScheme (l : List Char) : List Char :=
  match l.dropWhile (fun c => c != ':') with
  | [] => l
  | _ :: tail => if schemeOk (l.takeWhile (fun c => c != ':')) then tail else l

/-- Model of Go `url.Parse` followed by `URL.Hostname`, restricted to the
hostname outcome: strip a valid scheme before the first colon, parse an
authority only after `//`, and extract the validated host; a URL with no
authority has the empty hostname.  `none` models `url.Parse` returning an
error.  (Userinfo validation and percent-escape checking are abstracted;
every rejection models a parse error, which the caller passes through
unchanged, so the idempotence result is insensitive to exactly which
inputs fail to parse.) -/
def urlHostname (l : List Char) : Option (List Char) :=
  if l.head? = some ':' then none
  else if leadsWith ['/', '/'] (afterScheme l) then
    parseHostAuthority
      (((afterScheme l).drop 2).takeWhile (fun c => c != '/' && c != '?' && c != '#'))
  else some []

/-- First dot-separated label: Go `strings.Split(s, ".")[0]`. -/
def firstLabel (l : List Char) : List Char :=
  l.takeWhile (fun c => c != '.')

/-- Core of `ExtractInstanceName` (card.go) on character lists: a string
containing `://` is treated as a URL (first label of its hostname, or the
input itself when parsing fails); otherwise the first dot-label. -/
def extractInstanceCore (l : List Char) : List Char :=
  if hasSub [':', '/', '/'] l then
    match urlHostname l with
    | some host => firstLabel host
    | none => l
  else firstLabel l

/-- Model of `ExtractInstanceName` (card.go): extracts the instance name
from the provided URL, or returns the first dot-label of a bare name. -/
def ExtractInstanceName (s : String) : String :=
  ⟨extractInstanceCore s.data⟩

/-- Commit details from the drone pipeline environment (drone-go
`Commit`), restricted to the fields the plugin reads. -/
structure Commit where
  Message : String := ""
  Source : String := ""
  Target : String := ""
  Branch : String := ""
  Rev : String := ""
  Link : String := ""
  deriving Repr, DecidableEq

/-- Pull-request details from the drone pipeline environment. -/
structure PullRequest where
  Title : String := ""
  deriving Repr, DecidableEq

/-- Build details from the drone pipeline environment (drone-go `Build`;
named apart from the outgoing `Build` payload record of type.go). -/
structure DroneBuild where
  Number : Int := 0
  Status : String := ""
  Link : String := ""
  deriving Repr, DecidableEq

/-- Deployment details from the drone pipeline environment. -/
structure Deploy where
  Target : String := ""
  deriving Repr, DecidableEq

/-- Semantic-version details from the drone pipeline environment. -/
structure Semver where
  Version : String := ""
  deriving Repr, DecidableEq

/-- Tag details from the drone pipeline environment. -/
structure TagInfo where
  Name : String := ""
  deriving Repr, DecidableEq

/-- `Args` (plugin.go): plugin execution arguments, restricted to the
fields the verified logic reads. -/
structure Args where
  Commit : Commit := {}
  PullRequest : PullRequest := {}
  Build : DroneBuild := {}
  Deploy : Deploy := {}
  Semver : Semver := {}
  Tag : TagInfo := {}
  Level : String := ""
  CloudID : String := ""
  Instance : String := ""
  Project : String := ""
  Name : String := ""
  EnvironmentName : String := ""
  EnvironmentId : String := ""
  EnvironmentType : String := ""
  Link : String := ""
  State : String := ""
  ClientID : String := ""
  ClientSecret : String := ""
  ConnnectKey : String := ""
  ConnectHostname : String := ""
  IssueKeys : List String := []
  deriving Repr, DecidableEq

/-- `DefaultConnectHostname` (plugin.go). -/
def DefaultConnectHostname : String := "https://jira-ci.harness.io"

/-- `toState` (card.go): explicit state override, else the build status,
both normalized. -/
def toState (args : Args) : String :=
  if args.State ≠ "" then toStateEnum args.State
  else toStateEnum args.Build.Status

/-- `toEnvironment` (card.go): the explicit environment name, else the
deploy target, both normalized; defaults to `"production"`. -/
def toEnvironment (args : Args) : String :=
  if args.EnvironmentName ≠ "" then toEnvironmentEnum args.EnvironmentName
  else if args.Deploy.Target ≠ "" then toEnvironmentEnum args.Deploy.Target
  else "production"

/-- `toEnvironmentId` (card.go): the explicit environment id, defaulting
to the normalized environment. -/
def toEnvironmentId (args : Args) : String :=
  if args.EnvironmentId ≠ "" then args.EnvironmentId
  else toEnvironment args

/-- `toEnvironmentType` (card.go): the explicit environment type,
defaulting to the empty string. -/
def toEnvironmentType (args : Args) : String :=
  if args.EnvironmentType ≠ "" then args.EnvironmentType
  else ""

/-- `toVersion` (card.go): semver version, else tag name, else revision. -/
def toVersion (args : Args) : String :=
  if args.Semver.Version ≠ "" then args.Semver.Version
  else if args.Tag.Name ≠ "" then args.Tag.Name
  else args.Commit.Rev

/-- `toLink` (card.go): explicit link, else build link, else commit link. -/
def toLink (args : Args) : String :=
  if args.Link ≠ "" then args.Link
  else if args.Build.Link ≠ "" then args.Build.Link
  else args.Commit.Link

/-- The commit-message truncation of `Exec` (plugin.go lines 120-124):
messages longer than 255 are cut to their first 252 characters plus an
ellipsis. -/
def truncateMessage (m : String) : String :=
  if m.length > 255 then String.mk (m.data.take 252) ++ "..." else m

/-- Strip `pat` from the front of `l`, returning the remainder. -/
def stripLeads : List Char → List Char → Option (List Char)
  | [], l => some l
  | _ :: _, [] => none
  | p :: ps, c :: cs => if p = c then stripLeads ps cs else none

/-- The leftmost-at-this-position match of the pattern `P-<digits>` at
the head of `l`: the matched key (with a greedy digit run, as the regex
`\d+` matches) and the remainder after it. -/
def matchIssueAt (proj : List Char) (l : List Char) : Option (List Char × List Char) :=
  match stripLeads (proj ++ ['-']) l with
  | none => none
  | some rest =>
      if (rest.takeWhile (fun c => c.isDigit)).isEmpty then none
      else some (proj ++ '-' :: rest.takeWhile (fun c => c.isDigit),
                 rest.dropWhile (fun c => c.isDigit))

/-- Fuel-indexed scanner; the fuel (instantiated with the input length,
which every step strictly decreases) keeps the recursion structural so
that the kernel can evaluate it. -/
def scanIssuesFuel (proj : List Char) : Nat → List Char → List (List Char)
  | 0, _ => []
  | _ + 1, [] => []
  | f + 1, c :: cs =>
      match matchIssueAt proj (c :: cs) with
      | some (m, rest) => m :: scanIssuesFuel proj f rest
      | none => scanIssuesFuel proj f cs

/-- The non-overlapping, left-to-right scan of `l` for `P-<digits>`
occurrences: Go `regexp.FindAllString` semantics for the pattern the
extractor compiles. -/
def scanIssues (proj : List Char) (l : List Char) : List (List Char) :=
  scanIssuesFuel proj l.length l

/-- Modelled from the spec: the text sources the extractor scans — commit
message, pull-request title, source and target branches and the commit
branch, concatenated as Go `fmt.Sprintln` concatenates its operands.  The
multi-key `extractIssues` itself is not under src/ (only its callers and
tests are); §4.1 of the spec fixes its text sources. -/
def issueText (args : Args) : String :=
  args.Commit.Message ++ " " ++ args.PullRequest.Title ++ " " ++
    args.Commit.Source ++ " " ++ args.Commit.Target ++ " " ++
    args.Commit.Branch ++ "\n"

/-- Modelled from the spec: `extractIssues` returns every non-overlapping
`<PROJECT>-<digits>` occurrence across the configured text sources, in
first-occurrence order (spec §4.1 and §8; the function is called from
plugin.go line 111 but its definition is not under src/). -/
def extractIssues (args : Args) : List String :=
  (scanIssues args.Project.data (issueText args).data).map String.mk

/-- `Association` (type.go). -/
structure Association where
  Associationtype : String := ""
  Values : List String := []
  deriving Repr, DecidableEq

/-- `Environment` (type.go); the source field `Type` is renamed
`EnvType` because `Type` is a Lean keyword. -/
structure Environment where
  ID : String := ""
  Displayname : String := ""
  EnvType : String := ""
  deriving Repr, DecidableEq

/-- `JiraPipeline` (type.go). -/
structure JiraPipeline where
  ID : String := ""
  Displayname : String := ""
  URL : String := ""
  deriving Repr, DecidableEq

/-- `Deployment` (type.go); `Lastupdated` carries the `time.Now()` value
as an opaque timestamp. -/
structure Deployment where
  Deploymentsequencenumber : Int := 0
  Updatesequencenumber : Int := 0
  Associations : List Association := []
  Displayname : String := ""
  URL : String := ""
  Description : String := ""
  Lastupdated : Nat := 0
  State : String := ""
  Pipeline : JiraPipeline := {}
  Environment : Environment := {}
  deriving Repr, DecidableEq

/-- `DeploymentPayload` (type.go). -/
structure DeploymentPayload where
  Deployments : List Deployment := []
  deriving Repr, DecidableEq

/-- `CommitInfo` (type.go). -/
structure CommitInfo where
  ID : String := ""
  RepositoryURI : String := ""
  deriving Repr, DecidableEq

/-- `RefInfo` (type.go). -/
structure RefInfo where
  Name : String := ""
  URI : String := ""
  deriving Repr, DecidableEq

/-- `Reference` (type.go). -/
structure Reference where
  Commit : Option CommitInfo := none
  Ref : Option RefInfo := none
  deriving Repr, DecidableEq

/-- `Build` (type.go): the outgoing build record. -/
structure Build where
  BuildNumber : Int := 0
  Description : String := ""
  DisplayName : String := ""
  IssueKeys : List String := []
  LastUpdated : Nat := 0
  PipelineID : String := ""
  References : List Reference := []
  State : String := ""
  UpdateSequenceNumber : Int := 0
  URL : String := ""
  deriving Repr, DecidableEq

/-- `BuildPayload` (type.go). -/
structure BuildPayload where
  Builds : List Build := []
  deriving Repr, DecidableEq

/-- The deployment payload `Exec` constructs (plugin.go lines 127-155)
from the resolved issues and the (already truncated) commit message. -/
def mkDeploymentPayload (args : Args) (issues : List String)
    (commitMessage : String) (now : Nat) : DeploymentPayload :=
  { Deployments :=
      [{ Deploymentsequencenumber := args.Build.Number
         Updatesequencenumber := args.Build.Number
         Associations := [{ Associationtype := "issueIdOrKeys", Values := issues }]
         Displayname := toString args.Build.Number
         URL := toLink args
         Description := commitMessage
         Lastupdated := now
         State := toState args
         Pipeline := { ID := args.Name, Displayname := args.Name, URL := toLink args }
         Environment :=
           { ID := toEnvironmentId args
             Displayname := toEnvironment args
             EnvType := toEnvironmentType args } }] }

/-- The reference list `Exec` constructs (plugin.go lines 156-180). -/
def mkReferences (args : Args) : List Reference :=
  if args.Commit.Branch ≠ "" ∨ args.Commit.Link ≠ "" ∨ args.Commit.Rev ≠ "" then
    if (if args.Commit.Rev ≠ "" ∨ args.Commit.Link ≠ "" then true else false) ∨
        (if args.Commit.Branch ≠ "" ∧ args.Commit.Link ≠ "" then true else false) then
      [{ Commit :=
           if args.Commit.Rev ≠ "" ∨ args.Commit.Link ≠ "" then
             some { ID := args.Commit.Rev, RepositoryURI := args.Commit.Link }
           else none
         Ref :=
           if args.Commit.Branch ≠ "" ∧ args.Commit.Link ≠ "" then
             some { Name := args.Commit.Branch
                    URI := args.Commit.Link ++ "/refs/" ++ args.Commit.Branch }
           else none }]
    else []
  else []

/-- The build payload `Exec` constructs (plugin.go lines 181-197). -/
def mkBuildPayload (args : Args) (issues : List String)
    (commitMessage : String) (now : Nat) : BuildPayload :=
  { Builds :=
      [{ BuildNumber := args.Build.Number
         Description := commitMessage
         DisplayName := args.Name
         URL := toLink args
         LastUpdated := now
         PipelineID := args.Name
         IssueKeys := issues
         State := toState args
         UpdateSequenceNumber := args.Build.Number
         References := mkReferences args }] }

/-- The issue list `Exec` resolves (plugin.go lines 105-116): the
explicitly supplied keys when present, else pattern extraction. -/
def resolvedIssues (args : Args) : List String :=
  if args.IssueKeys.length > 0 then args.IssueKeys else extractIssues args

/-- A JSON value as far as the token-response handling inspects it: a
string, or some non-string value. -/
inductive JsonVal where
  | str (s : String)
  | other
  deriving Repr, DecidableEq

/-- An HTTP response to the OAuth token request, with its body given in
parsed form: `none` models a body `json.Unmarshal` rejects, `some fields`
the parsed JSON object. -/
structure TokenResp where
  statusCode : Nat := 200
  body : Option (List (String × JsonVal)) := none
  deriving Repr, DecidableEq

/-- The outcome of a Go call that can return a value, return an error, or
panic (an unchecked type assertion). -/
inductive GoResult (α : Type) where
  | ok (a : α)
  | err (msg : String)
  | panicked
  deriving Repr, DecidableEq

/-- First value bound to `key` in a parsed JSON object (Go map index). -/
def lookupField (key : String) : List (String × JsonVal) → Option JsonVal
  | [] => none
  | (k, v) :: rest => if k = key then some v else lookupField key rest

/-- Model of `getOauthToken` (plugin.go lines 280-317) as a function of
the token-endpoint response: statuses above 299 and unparsable bodies
return errors; otherwise the unchecked type assertion
`output["access_token"].(string)` yields the token, and panics when the
field is absent or not a string. -/
def getOauthToken (res : TokenResp) : GoResult String :=
  if res.statusCode > 299 then .err ("errorCode " ++ toString res.statusCode)
  else
    match res.body with
    | none => .err "invalid json"
    | some fields =>
        match lookupField "access_token" fields with
        | some (.str t) => .ok t
        | some .other => .panicked
        | none => .panicked

/-- An HTTP response to the connect-token request. -/
structure ConnectResp where
  statusCode : Nat := 200
  body : String := ""
  deriving Repr, DecidableEq

/-- Model of `getConnectToken` (plugin.go lines 319-334) as a function of
the transport outcome: a transport error is returned as-is, and any
completed response yields its whole body as the token with no status
inspection. -/
def getConnectToken (transport : Except String ConnectResp) : Except String String :=
  match transport with
  | .error e => .error e
  | .ok res => .ok res.body

/-- The network requests `Exec` can issue, in issue order. -/
inductive NetCall where
  | tenantLookup
  | oauthTokenReq
  | cloudDeployPost
  | connectTokenReq
  | connectDeployPost
  | connectBuildPost
  deriving Repr, DecidableEq

/-- The distinct error return sites of `Exec`. -/
inductive ExecErr where
  | issueNotFound
  | missingCredentials
  | cloudIdError (msg : String)
  | oauthTokenError (msg : String)
  | deployRejected (code : Nat)
  | connectTokenError (msg : String)
  | connectDeployRejected (code : Nat)
  | connectBuildRejected (code : Nat)
  deriving Repr, DecidableEq

/-- The outcome of a run of `Exec`. -/
inductive ExecResult where
  | ok
  | err (e : ExecErr)
  | panicked
  deriving Repr, DecidableEq

/-- The environment's answers to the network requests `Exec` can issue:
the tenant lookup, the two token endpoints, and the three bulk-report
endpoints (for which only the status code matters). -/
structure NetWorld where
  tenantResp : Except String String := .ok ""
  tokenResp : TokenResp := {}
  connectResp : Except String ConnectResp := .ok {}
  deployStatus : Nat := 200
  connectDeployStatus : Nat := 200
  connectBuildStatus : Nat := 200
  deriving Repr

/-- Model of `getCloudID` (plugin.go lines 429-442) together with the
network request `lookupTenant` makes, returning the resolved cloud id and
the requests issued. -/
def getCloudID (instanceName cloudID : String) (w : NetWorld) :
    Except String String × List NetCall :=
  if instanceName ≠ "" then
    match w.tenantResp with
    | .error e => (.error ("cannotGetCloudIdFromInstance, " ++ e), [.tenantLookup])
    | .ok tid => (.ok tid, [.tenantLookup])
  else if cloudID = "" then
    (.error "cloudIdIsEmptySpecifyTheCloudIdOrInstanceName", [])
  else (.ok cloudID, [])

/-- Model of `Exec` (plugin.go lines 80-277) restricted to its control
flow, result and network-request trace; the response to each request is
drawn from `w`.  Payload construction and card writing are pure in the
source (`writeCard` always returns nil) and do not affect the trace. -/
def ExecNet (args : Args) (w : NetWorld) : ExecResult × List NetCall :=
  if (resolvedIssues args).length = 0 then (.err .issueNotFound, [])
  else if args.ClientID = "" ∧ args.ClientSecret = "" ∧ args.ConnnectKey = "" then
    (.err .missingCredentials, [])
  else if args.ClientID ≠ "" ∧ args.ClientSecret ≠ "" then
    match getCloudID (ExtractInstanceName args.Instance) args.CloudID w with
    | (.error e, calls) => (.err (.cloudIdError e), calls)
    | (.ok _, calls) =>
        match getOauthToken w.tokenResp with
        | .err m => (.err (.oauthTokenError m), calls ++ [.oauthTokenReq])
        | .panicked => (.panicked, calls ++ [.oauthTokenReq])
        | .ok _ =>
            if w.deployStatus > 299 then
              (.err (.deployRejected w.deployStatus), calls ++ [.oauthTokenReq, .cloudDeployPost])
            else (.ok, calls ++ [.oauthTokenReq, .cloudDeployPost])
  else
    match getConnectToken w.connectResp with
    | .error e => (.err (.connectTokenError e), [.connectTokenReq])
    | .ok _ =>
        if args.EnvironmentName ≠ "" then
          if w.connectDeployStatus > 299 then
            (.err (.connectDeployRejected w.connectDeployStatus),
             [.connectTokenReq, .connectDeployPost])
          else (.ok, [.connectTokenReq, .connectDeployPost])
        else
          if w.connectBuildStatus > 299 then
            (.err (.connectBuildRejected w.connectBuildStatus),
             [.connectTokenReq, .connectBuildPost])
          else (.ok, [.connectTokenReq, .connectBuildPost])

/-- Modelled from the spec: the IssueStateGuard decision (§4.5).  The
guard itself is not under src/; the spec fixes its contract: an absent
status field is treated as closed (fail safe), a status name
case-insensitively equal to `CLOSED` vetoes, anything else permits. -/
def issueStateGuardPermits (status : Option String) : Bool :=
  match status with
  | none => false
  | some name => asciiLower name != "closed"

/-- The observable events of the guarded OAuth/Cloud reporting run. -/
inductive GuardEvent where
  | issueStatusFetch
  | bulkReportPost
  deriving Repr, DecidableEq

/-- The outcome of the guarded OAuth/Cloud reporting run. -/
inductive GuardOutcome where
  | issueClosed
  | reported
  deriving Repr, DecidableEq

/-- Modelled from the spec: the OAuth/Cloud reporting run with the
IssueStateGuard (§4.5, §8): the run fetches the issue status first and
issues the bulk-report POST only when the guard permits; a veto aborts
with IssueClosed. -/
def oauthGuardedRun (status : Option String) : GuardOutcome × List GuardEvent :=
  if issueStateGuardPermits status then
    (.reported, [.issueStatusFetch, .bulkReportPost])
  else (.issueClosed, [.issueStatusFetch])

/-- The deployment and build payloads `Exec` sends (plugin.go lines
120-197): both carry the truncated commit message as description. -/
def execPayloads (args : Args) (now : Nat) : DeploymentPayload × BuildPayload :=
  (mkDeploymentPayload args (resolvedIssues args) (truncateMessage args.Commit.Message) now,
   mkBuildPayload args (resolvedIssues args) (truncateMessage args.Commit.Message) now)

/-- The fully supplied credential configuration used to witness C4's
amended claim. -/
def bothCredArgs : Args :=
  { ClientID := "id", ClientSecret := "secret", ConnnectKey := "key", IssueKeys := ["TEST-1"] }

/-- The id-only credential configuration used to witness C4's amended
claim. -/
def idOnlyArgs : Args :=
  { ClientID := "id", IssueKeys := ["TEST-1"] }

theorem stateEnumOf_total (ls : String) : stateEnumOf ls ∈ stateEnumOutputs := by
  unfold stateEnumOf
  iterate 6 (split; · decide)
  decide

theorem toStateEnum_total (s : String) : toStateEnum s ∈ stateEnumOutputs :=
  stateEnumOf_total (asciiLower s)

theorem environmentEnumOf_total (ls : String) :
    environmentEnumOf ls ∈ environmentEnumOutputs := by
  unfold environmentEnumOf
  iterate 4 (split; · decide)
  decide

theorem toEnvironmentEnum_total (s : String) :
    toEnvironmentEnum s ∈ environmentEnumOutputs :=
  environmentEnumOf_total (asciiLower s)

theorem toStateEnum_lower_congr {s t : String} (h : asciiLower s = asciiLower t) :
    toStateEnum s = toStateEnum t := by
  unfold toStateEnum
  rw [h]

theorem toEnvironmentEnum_lower_congr {s t : String} (h : asciiLower s = asciiLower t) :
    toEnvironmentEnum s = toEnvironmentEnum t := by
  unfold toEnvironmentEnum
  rw [h]

theorem toStateEnum_unrecognized {s : String} (h : asciiLower s ∉ stateEnumInputs) :
    toStateEnum s = "unknown" := by
  unfold stateEnumInputs at h
  simp only [List.mem_cons, List.not_mem_nil, or_false, not_or] at h
  obtain ⟨h1, h2, h3, h4, h5, h6, h7, h8, h9, h10, h11, h12, h13, h14, h15, h16⟩ := h
  unfold toStateEnum stateEnumOf
  simp [h1, h2, h3, h4, h5, h6, h7, h8, h9, h10, h11, h12, h13, h14, h15, h16]

theorem toEnvironmentEnum_unrecognized {s : String}
    (h : asciiLower s ∉ environmentEnumInputs) : toEnvironmentEnum s = "unmapped" := by
  unfold environmentEnumInputs at h
  simp only [List.mem_cons, List.not_mem_nil, or_false, not_or] at h
  obtain ⟨h1, h2, h3, h4, h5, h6, h7, h8⟩ := h
  unfold toEnvironmentEnum environmentEnumOf
  simp [h1, h2, h3, h4, h5, h6, h7, h8]

theorem mem_of_mem_takeWhile {p : Char → Bool} {l : List Char} {c : Char}
    (h : c ∈ l.takeWhile p) : c ∈ l := by
  induction l with
  | nil => simp at h
  | cons a as ih =>
    rw [List.takeWhile_cons] at h
    by_cases hp : p a
    · simp only [hp, if_true, List.mem_cons] at h
      rcases h with h | h
      · simp [h]
      · exact List.mem_cons_of_mem a (ih h)
    · simp [hp] at h

theorem pred_of_mem_takeWhile {p : Char → Bool} {l : List Char} {c : Char}
    (h : c ∈ l.takeWhile p) : p c := by
  induction l with
  | nil => simp at h
  | cons a as ih =>
    rw [List.takeWhile_cons] at h
    by_cases hp : p a
    · simp only [hp, if_true, List.mem_cons] at h
      rcases h with h | h
      · rwa [h]
      · exact ih h
    · simp [hp] at h

theorem takeWhile_eq_self_of_pred {p : Char → Bool} {l : List Char}
    (h : ∀ c ∈ l, p c) : l.takeWhile p = l := by
  induction l with
  | nil => rfl
  | cons a as ih =>
    rw [List.takeWhile_cons, if_pos (h a (by simp))]
    rw [ih (fun c hc => h c (List.mem_cons_of_mem a hc))]

theorem mem_of_mem_dropWhile {p : Char → Bool} {l : List Char} {c : Char}
    (h : c ∈ l.dropWhile p) : c ∈ l := by
  induction l with
  | nil => simp at h
  | cons a as ih =>
    rw [List.dropWhile_cons] at h
    by_cases hp : p a
    · simp only [hp, if_true] at h
      exact List.mem_cons_of_mem a (ih h)
    · simp only [hp, if_false] at h
      exact h

theorem mem_of_mem_drop {l : List Char} {n : Nat} {c : Char}
    (h : c ∈ l.drop n) : c ∈ l :=
  List.mem_of_mem_drop h

theorem mem_of_mem_afterLast {a : Char} {l : List Char} {c : Char}
    (h : c ∈ afterLast a l) : c ∈ l := by
  unfold afterLast at h
  rw [List.mem_reverse] at h
  have := mem_of_mem_takeWhile h
  rwa [List.mem_reverse] at this

theorem mem_of_mem_beforeLast {a : Char} {l : List Char} {c : Char}
    (h : c ∈ beforeLast a l) : c ∈ l := by
  unfold beforeLast at h
  rw [List.mem_reverse] at h
  have := mem_of_mem_dropWhile (mem_of_mem_drop h)
  rwa [List.mem_reverse] at this

theorem leadsWith_append {pat l₁ l₂ : List Char} (h : leadsWith pat l₁ = true) :
    leadsWith pat (l₁ ++ l₂) = true := by
  induction pat generalizing l₁ with
  | nil => rfl
  | cons p ps ih =>
    cases l₁ with
    | nil => simp [leadsWith] at h
    | cons c cs =>
      simp only [leadsWith, Bool.and_eq_true, beq_iff_eq] at h
      simp only [List.cons_append, leadsWith, Bool.and_eq_true, beq_iff_eq]
      exact ⟨h.1, ih h.2⟩

theorem hasSub_append_right {pat l₁ l₂ : List Char} (h : hasSub pat l₁ = true) :
    hasSub pat (l₁ ++ l₂) = true := by
  induction l₁ with
  | nil =>
    simp only [hasSub] at h
    cases pat with
    | nil =>
      cases l₂ with
      | nil => exact h
      | cons b bs => simp [hasSub, leadsWith]
    | cons p ps => simp [leadsWith] at h
  | cons c cs ih =>
    simp only [hasSub, Bool.or_eq_true] at h
    simp only [List.cons_append, hasSub, Bool.or_eq_true]
    rcases h with h | h
    · left
      have := @leadsWith_append pat (c :: cs) l₂ h
      simpa using this
    · right
      exact ih h

theorem hasSub_of_hasSub_takeWhile {pat : List Char} {p : Char → Bool} {l : List Char}
    (h : hasSub pat (l.takeWhile p) = true) : hasSub pat l = true := by
  have := @hasSub_append_right pat (l.takeWhile p) (l.dropWhile p) h
  rwa [List.takeWhile_append_dropWhile] at this

theorem mem_of_leadsWith {pat l : List Char} {c : Char}
    (h : leadsWith pat l = true) (hc : c ∈ pat) : c ∈ l := by
  induction pat generalizing l with
  | nil => simp at hc
  | cons p ps ih =>
    cases l with
    | nil => simp [leadsWith] at h
    | cons b bs =>
      simp only [leadsWith, Bool.and_eq_true, beq_iff_eq] at h
      rcases List.mem_cons.mp hc with hc | hc
      · simp [hc, ← h.1]
      · exact List.mem_cons_of_mem b (ih h.2 hc)

theorem mem_of_hasSub {pat l : List Char} {c : Char}
    (h : hasSub pat l = true) (hc : c ∈ pat) : c ∈ l := by
  induction l with
  | nil =>
    simp only [hasSub] at h
    exact mem_of_leadsWith h hc
  | cons b bs ih =>
    simp only [hasSub, Bool.or_eq_true] at h
    rcases h with h | h
    · exact mem_of_leadsWith h hc
    · exact List.mem_cons_of_mem b (ih h)

example : ExtractInstanceName "http://test.com" = "test" := by decide
example : ExtractInstanceName "https://subdomain.test.com" = "subdomain" := by decide
example : ExtractInstanceName "ftp://ftp.test.org" = "ftp" := by decide
example : ExtractInstanceName "instance.test.com" = "instance" := by decide
example : ExtractInstanceName "subdomain.instance.test.org" = "subdomain" := by decide
example : ExtractInstanceName "localhost" = "localhost" := by decide
example : ExtractInstanceName "http://" = "" := by decide
example : ExtractInstanceName "invalid-url" = "invalid-url" := by decide

theorem mem_of_mem_dropLast {l : List Char} {c : Char}
    (h : c ∈ l.dropLast) : c ∈ l := by
  rw [List.dropLast_eq_take] at h
  exact List.mem_of_mem_take h

theorem mem_of_mem_stripPort {hp : List Char} {c : Char}
    (h : c ∈ stripPort hp) : c ∈ hp := by
  unfold stripPort at h
  split at h
  · exact mem_of_mem_beforeLast h
  · exact h

theorem mem_of_mem_stripBrackets {x : List Char} {c : Char}
    (h : c ∈ stripBrackets x) : c ∈ x := by
  unfold stripBrackets at h
  split at h
  · exact mem_of_mem_drop (mem_of_mem_dropLast h)
  · exact h

theorem mem_of_mem_goHostname {hp : List Char} {c : Char}
    (h : c ∈ goHostname hp) : c ∈ hp :=
  mem_of_mem_stripPort (mem_of_mem_stripBrackets h)

theorem parseHostPort_mem {hp h : List Char}
    (hph : parseHostPort hp = some h) : ∀ c ∈ h, c ∈ hp := by
  intro c hc
  unfold parseHostPort at hph
  split at hph
  · exact absurd hph (by simp)
  · split at hph
    · split at hph
      · exact absurd hph (by simp)
      · split at hph
        · exact absurd hph (by simp)
        · exact mem_of_mem_goHostname (Option.some.inj hph ▸ hc)
    · split at hph
      · exact absurd hph (by simp)
      · exact mem_of_mem_goHostname (Option.some.inj hph ▸ hc)

theorem parseHostAuthority_mem {auth h : List Char}
    (hph : parseHostAuthority auth = some h) : ∀ c ∈ h, c ∈ auth := by
  intro c hc
  unfold parseHostAuthority at hph
  by_cases hat : auth.contains '@'
  · rw [if_pos hat] at hph
    exact mem_of_mem_afterLast (parseHostPort_mem hph c hc)
  · rw [if_neg hat] at hph
    exact parseHostPort_mem hph c hc

theorem urlHostname_no_slash {l h : List Char}
    (hu : urlHostname l = some h) : ∀ c ∈ h, c ≠ '/' := by
  intro c hc
  unfold urlHostname at hu
  split at hu
  · exact absurd hu (by simp)
  · split at hu
    · have hmem := parseHostAuthority_mem hu c hc
      have hpred := pred_of_mem_takeWhile hmem
      intro hEq
      rw [hEq] at hpred
      simp at hpred
    · have : h = [] := (Option.some.inj hu).symm
      rw [this] at hc
      simp at hc

theorem firstLabel_firstLabel (l : List Char) :
    firstLabel (firstLabel l) = firstLabel l := by
  unfold firstLabel
  apply takeWhile_eq_self_of_pred
  intro c hc
  exact @pred_of_mem_takeWhile (fun d => d != '.') _ _ hc

theorem hasSub_firstLabel_false {pat l : List Char}
    (h : hasSub pat l = false) : hasSub pat (firstLabel l) = false := by
  by_contra hcon
  rw [Bool.not_eq_false] at hcon
  have := hasSub_of_hasSub_takeWhile hcon
  rw [h] at this
  exact Bool.false_ne_true this

theorem extractInstanceCore_idem (l : List Char) :
    extractInstanceCore (extractInstanceCore l) = extractInstanceCore l := by
  by_cases hsub : hasSub [':', '/', '/'] l = true
  · rcases hh : urlHostname l with _ | host
    · have h1 : extractInstanceCore l = l := by
        unfold extractInstanceCore
        rw [if_pos hsub, hh]
      rw [h1]
      exact h1
    · have h1 : extractInstanceCore l = firstLabel host := by
        unfold extractInstanceCore
        rw [if_pos hsub, hh]
      rw [h1]
      have hns : hasSub [':', '/', '/'] (firstLabel host) = false := by
        by_contra hcon
        rw [Bool.not_eq_false] at hcon
        have hslash : '/' ∈ firstLabel host := mem_of_hasSub hcon (by decide)
        exact urlHostname_no_slash hh '/' (mem_of_mem_takeWhile hslash) rfl
      unfold extractInstanceCore
      rw [if_neg (by simp [hns]), firstLabel_firstLabel]
  · have h1 : extractInstanceCore l = firstLabel l := by
      unfold extractInstanceCore
      rw [if_neg hsub]
    rw [h1]
    have hns := hasSub_firstLabel_false (Bool.not_eq_true _ ▸ hsub)
    unfold extractInstanceCore
    rw [if_neg (by simp [hns]), firstLabel_firstLabel]

theorem stripLeads_length {pat l r : List Char}
    (h : stripLeads pat l = some r) : r.length + pat.length = l.length := by
  induction pat generalizing l with
  | nil =>
    cases l with
    | nil => simp [stripLeads] at h; simp [h]
    | cons c cs => simp [stripLeads] at h; simp [h]
  | cons p ps ih =>
    cases l with
    | nil => simp [stripLeads] at h
    | cons c cs =>
      simp only [stripLeads] at h
      split at h
      · have := ih h
        simp only [List.length_cons]
        omega
      · exact absurd h (by simp)

theorem length_dropWhile_le (p : Char → Bool) (l : List Char) :
    (l.dropWhile p).length ≤ l.length := by
  induction l with
  | nil => simp
  | cons c cs ih =>
    rw [List.dropWhile_cons]
    split
    · exact Nat.le_trans ih (by simp)
    · simp

theorem matchIssueAt_length {proj l m rest : List Char}
    (h : matchIssueAt proj l = some (m, rest)) : rest.length < l.length := by
  unfold matchIssueAt at h
  rcases hs : stripLeads (proj ++ ['-']) l with _ | r
  · rw [hs] at h
    exact absurd h (by simp)
  · rw [hs] at h
    dsimp only at h
    have hlen := stripLeads_length hs
    simp only [List.length_append, List.length_cons, List.length_nil] at hlen
    by_cases hEmpty : (r.takeWhile (fun c => c.isDigit)).isEmpty
    · rw [if_pos hEmpty] at h
      exact absurd h (by simp)
    · rw [if_neg hEmpty] at h
      have hr : rest = r.dropWhile (fun c => c.isDigit) :=
        (congrArg Prod.snd (Option.some.inj h)).symm
      have := length_dropWhile_le (fun c => c.isDigit) r
      rw [hr]
      omega

example :
    extractIssues { Commit := { Message := "Multiple issues: TEST-123, TEST-234, TEST-456" },
                    Project := "TEST" } =
      ["TEST-123", "TEST-234", "TEST-456"] := by decide

example :
    extractIssues { Commit := { Message := "no issue" }, Project := "TEST" } = [] := by
  decide

/-- C1: in the OAuth/Cloud branch the run fetches the issue's current
status before any bulk-report POST; when the status field is absent or
its name case-insensitively equals "CLOSED", the run fails with
IssueClosed and no bulk-report POST is issued. -/
theorem c1_issue_closed_guard (status : Option String)
    (h : status = none ∨ ∃ n, status = some n ∧ asciiLower n = "closed") :
    (oauthGuardedRun status).2.head? = some GuardEvent.issueStatusFetch ∧
    (oauthGuardedRun status).1 = GuardOutcome.issueClosed ∧
    GuardEvent.bulkReportPost ∉ (oauthGuardedRun status).2 := by
  rcases h with h | ⟨n, hn, hc⟩
  · subst h
    refine ⟨rfl, rfl, by decide⟩
  · subst hn
    have hperm : issueStateGuardPermits (some n) = false := by
      unfold issueStateGuardPermits
      simp [hc]
    unfold oauthGuardedRun
    rw [hperm]
    refine ⟨rfl, rfl, by decide⟩

theorem c1_issue_closed_guard_witness :
    (oauthGuardedRun (some "Closed")).1 = GuardOutcome.issueClosed ∧
    GuardEvent.bulkReportPost ∉ (oauthGuardedRun (some "Closed")).2 :=
  ⟨(c1_issue_closed_guard (some "Closed") (Or.inr ⟨"Closed", rfl, by decide⟩)).2.1,
   (c1_issue_closed_guard (some "Closed") (Or.inr ⟨"Closed", rfl, by decide⟩)).2.2⟩

/-- C2: whenever at least one issue key is resolved and the OAuth client
id, the OAuth client secret and the connect key are all empty, Exec
returns the missing-credentials error and issues no network request. -/
theorem c2_missing_credentials (args : Args) (w : NetWorld)
    (hIss : resolvedIssues args ≠ [])
    (hId : args.ClientID = "") (hSec : args.ClientSecret = "")
    (hKey : args.ConnnectKey = "") :
    ExecNet args w = (ExecResult.err ExecErr.missingCredentials, []) := by
  have h0 : ¬ (resolvedIssues args).length = 0 := fun hh => hIss (List.length_eq_zero.mp hh)
  unfold ExecNet
  rw [if_neg h0, if_pos ⟨hId, hSec, hKey⟩]

theorem c2_missing_credentials_witness :
    ExecNet { IssueKeys := ["TEST-1"] } {} =
      (ExecResult.err ExecErr.missingCredentials, []) :=
  c2_missing_credentials { IssueKeys := ["TEST-1"] } {} (by decide) rfl rfl rfl

/-- C9: `ExtractInstanceName` is idempotent on every input string. -/
theorem c9_extract_instance_idempotent (s : String) :
    ExtractInstanceName (ExtractInstanceName s) = ExtractInstanceName s :=
  congrArg String.mk (extractInstanceCore_idem s.data)

/-- C10: `getConnectToken` fails only on transport errors; every
completed response, whatever its status code, yields the entire response
body as the token with no error. -/
theorem c10_connect_token_ignores_status (r : ConnectResp) (e : String) :
    getConnectToken (Except.ok r) = Except.ok r.body ∧
    getConnectToken (Except.error e) = Except.error e :=
  ⟨rfl, rfl⟩

theorem matchIssueAt_shape {proj l m rest : List Char}
    (h : matchIssueAt proj l = some (m, rest)) :
    ∃ ds, ds ≠ [] ∧ (∀ c ∈ ds, c.isDigit = true) ∧ m = proj ++ '-' :: ds := by
  unfold matchIssueAt at h
  rcases hs : stripLeads (proj ++ ['-']) l with _ | r
  · rw [hs] at h
    exact absurd h (by simp)
  · rw [hs] at h
    dsimp only at h
    by_cases hEmpty : (r.takeWhile (fun c => c.isDigit)).isEmpty
    · rw [if_pos hEmpty] at h
      exact absurd h (by simp)
    · rw [if_neg hEmpty] at h
      refine ⟨r.takeWhile (fun c => c.isDigit), ?_, ?_, ?_⟩
      · intro hnil
        rw [hnil] at hEmpty
        exact hEmpty rfl
      · intro c hc
        exact @pred_of_mem_takeWhile (fun d => d.isDigit) _ _ hc
      · exact (congrArg Prod.fst (Option.some.inj h)).symm

theorem scanIssuesFuel_shape {proj : List Char} {f : Nat} {l m : List Char}
    (h : m ∈ scanIssuesFuel proj f l) :
    ∃ ds, ds ≠ [] ∧ (∀ c ∈ ds, c.isDigit = true) ∧ m = proj ++ '-' :: ds := by
  induction f generalizing l with
  | zero => simp [scanIssuesFuel] at h
  | succ f ih =>
    cases l with
    | nil => simp [scanIssuesFuel] at h
    | cons c cs =>
      rw [scanIssuesFuel] at h
      rcases hm : matchIssueAt proj (c :: cs) with _ | ⟨mm, rest⟩
      · rw [hm] at h
        exact ih h
      · rw [hm] at h
        rcases List.mem_cons.mp h with h | h
        · exact h ▸ matchIssueAt_shape hm
        · exact ih h

theorem extractIssues_shape {args : Args} {m : String}
    (h : m ∈ extractIssues args) :
    ∃ ds, ds ≠ [] ∧ (∀ c ∈ ds, c.isDigit = true) ∧
      m.data = args.Project.data ++ '-' :: ds := by
  unfold extractIssues at h
  rcases List.mem_map.mp h with ⟨lm, hlm, hmk⟩
  obtain ⟨ds, hne, hdig, hshape⟩ := scanIssuesFuel_shape hlm
  exact ⟨ds, hne, hdig, by rw [← hmk, hshape]⟩

/-- C3: the multi-key extractor returns the non-overlapping `P-<digits>`
matches across the configured text sources in first-occurrence order
(empty when none exist); every returned key carries the exact project
prefix followed by a nonempty digit run, and on the spec's scenario
message it yields exactly TEST-123, TEST-234, TEST-456. -/
theorem c3_multi_extractor :
    extractIssues { Commit := { Message := "Multiple issues: TEST-123, TEST-234, TEST-456" },
                    Project := "TEST" } = ["TEST-123", "TEST-234", "TEST-456"] ∧
    extractIssues { Commit := { Message := "feature/TEST-123 [TEST-456] and [TEST-789]" },
                    Project := "TEST" } = ["TEST-123", "TEST-456", "TEST-789"] ∧
    extractIssues { Commit := { Message := "TEST-123 TEST-456 TEST-789" },
                    Project := "TEST" } = ["TEST-123", "TEST-456", "TEST-789"] ∧
    extractIssues { Commit := { Message := "no issue" }, Project := "TEST" } = [] ∧
    (∀ (args : Args) (m : String), m ∈ extractIssues args →
      ∃ ds, ds ≠ [] ∧ (∀ c ∈ ds, c.isDigit = true) ∧
        m.data = args.Project.data ++ '-' :: ds) :=
  ⟨by decide, by decide, by decide, by decide, fun _ _ h => extractIssues_shape h⟩

theorem c3_multi_extractor_witness :
    ∃ ds, ds ≠ [] ∧ (∀ c ∈ ds, c.isDigit = true) ∧
      ("TEST-123" : String).data = ("TEST" : String).data ++ '-' :: ds :=
  c3_multi_extractor.2.2.2.2
    { Commit := { Message := "Multiple issues: TEST-123, TEST-234, TEST-456" },
      Project := "TEST" }
    "TEST-123" (by decide)

theorem toEnvironment_ne_empty (args : Args) : toEnvironment args ≠ "" := by
  unfold toEnvironment
  split
  · have htot := toEnvironmentEnum_total args.EnvironmentName
    intro hh
    rw [hh] at htot
    simp [environmentEnumOutputs] at htot
  · split
    · have htot := toEnvironmentEnum_total args.Deploy.Target
      intro hh
      rw [hh] at htot
      simp [environmentEnumOutputs] at htot
    · simp

/-- C5: with an empty `EnvironmentId` the environment id placed in the
deployment payload defaults to the normalized environment (the result of
`toEnvironment`); with an empty `EnvironmentType` the environment type
defaults to the empty string — not to "production" and not to the
normalized environment — so the two defaulting rules are distinct. -/
theorem c5_environment_defaults (args : Args) (issues : List String)
    (cm : String) (now : Nat) :
    ((mkDeploymentPayload args issues cm now).Deployments.map
        (fun d => d.Environment.ID)) = [toEnvironmentId args] ∧
    ((mkDeploymentPayload args issues cm now).Deployments.map
        (fun d => d.Environment.EnvType)) = [toEnvironmentType args] ∧
    (args.EnvironmentId = "" → toEnvironmentId args = toEnvironment args) ∧
    (args.EnvironmentType = "" →
      toEnvironmentType args = "" ∧
      toEnvironmentType args ≠ "production" ∧
      toEnvironmentType args ≠ toEnvironment args) := by
  refine ⟨rfl, rfl, ?_, ?_⟩
  · intro h
    unfold toEnvironmentId
    rw [if_neg (by simp [h])]
  · intro h
    have ht : toEnvironmentType args = "" := by
      unfold toEnvironmentType
      rw [if_neg (by simp [h])]
    refine ⟨ht, by rw [ht]; simp, ?_⟩
    rw [ht]
    exact fun hh => toEnvironment_ne_empty args hh.symm

theorem c5_environment_defaults_witness :
    toEnvironmentId {} = toEnvironment {} ∧ toEnvironmentType {} = "" :=
  ⟨(c5_environment_defaults {} [] "" 0).2.2.1 rfl,
   ((c5_environment_defaults {} [] "" 0).2.2.2 rfl).1⟩

/-- C6: the description placed in the outgoing deployment and build
payloads is the commit message truncated to its first 252 characters
plus a 3-character ellipsis (255 total) when the message exceeds 255
characters, and the unchanged message otherwise. -/
theorem c6_description_truncation (args : Args) (now : Nat) :
    ((execPayloads args now).1.Deployments.map (fun d => d.Description)) =
      [truncateMessage args.Commit.Message] ∧
    ((execPayloads args now).2.Builds.map (fun b => b.Description)) =
      [truncateMessage args.Commit.Message] ∧
    (args.Commit.Message.length > 255 →
      truncateMessage args.Commit.Message =
        String.mk (args.Commit.Message.data.take 252) ++ "..." ∧
      (truncateMessage args.Commit.Message).length = 255) ∧
    (args.Commit.Message.length ≤ 255 →
      truncateMessage args.Commit.Message = args.Commit.Message) := by
  refine ⟨rfl, rfl, ?_, ?_⟩
  · intro h
    have ht : truncateMessage args.Commit.Message =
        String.mk (args.Commit.Message.data.take 252) ++ "..." := by
      unfold truncateMessage
      rw [if_pos h]
    refine ⟨ht, ?_⟩
    rw [ht, String.length_append]
    have hdata : args.Commit.Message.data.length > 255 := h
    have htake : (args.Commit.Message.data.take 252).length = 252 := by
      rw [List.length_take]
      omega
    have hmk : (String.mk (args.Commit.Message.data.take 252)).length = 252 := htake
    rw [hmk]
    rfl
  · intro h
    unfold truncateMessage
    rw [if_neg (by omega)]

set_option maxRecDepth 4000 in
theorem c6_description_truncation_witness :
    (String.mk (List.replicate 256 'a')).length > 255 ∧
    truncateMessage (String.mk (List.replicate 256 'a')) =
      String.mk ((String.mk (List.replicate 256 'a')).data.take 252) ++ "..." ∧
    (truncateMessage (String.mk (List.replicate 256 'a'))).length = 255 :=
  ⟨by decide,
   ((c6_description_truncation
      { Commit := { Message := String.mk (List.replicate 256 'a') } } 0).2.2.1 (by decide)).1,
   ((c6_description_truncation
      { Commit := { Message := String.mk (List.replicate 256 'a') } } 0).2.2.1 (by decide)).2⟩

/-- C7: `toStateEnum` and `toEnvironmentEnum` are total, case-insensitive
normalizers: every input maps to exactly one value of the closed output
vocabulary according to the mapping table, the result depends only on the
ASCII-lowercased input, and every unrecognized input maps to "unknown"
respectively "unmapped" — raw inputs never leak through. -/
theorem c7_normalizers_total (s t : String) :
    toStateEnum s ∈ stateEnumOutputs ∧
    toEnvironmentEnum s ∈ environmentEnumOutputs ∧
    (asciiLower s = asciiLower t →
      toStateEnum s = toStateEnum t ∧ toEnvironmentEnum s = toEnvironmentEnum t) ∧
    (asciiLower s ∉ stateEnumInputs → toStateEnum s = "unknown") ∧
    (asciiLower s ∉ environmentEnumInputs → toEnvironmentEnum s = "unmapped") ∧
    ((asciiLower s = "pending" ∨ asciiLower s = "waiting") → toStateEnum s = "pending") ∧
    ((asciiLower s = "running" ∨ asciiLower s = "in_progress") →
      toStateEnum s = "in_progress") ∧
    ((asciiLower s = "cancelled" ∨ asciiLower s = "killed" ∨ asciiLower s = "stopped" ∨
        asciiLower s = "terminated") → toStateEnum s = "cancelled") ∧
    ((asciiLower s = "failed" ∨ asciiLower s = "failure" ∨ asciiLower s = "error" ∨
        asciiLower s = "errored") → toStateEnum s = "failed") ∧
    ((asciiLower s = "rollback" ∨ asciiLower s = "rolled_back") →
      toStateEnum s = "rolled_back") ∧
    ((asciiLower s = "success" ∨ asciiLower s = "successful") →
      toStateEnum s = "successful") ∧
    ((asciiLower s = "prod" ∨ asciiLower s = "production") →
      toEnvironmentEnum s = "production") ∧
    ((asciiLower s = "stage" ∨ asciiLower s = "staging") →
      toEnvironmentEnum s = "staging") ∧
    ((asciiLower s = "dev" ∨ asciiLower s = "development") →
      toEnvironmentEnum s = "development") ∧
    ((asciiLower s = "testing" ∨ asciiLower s = "test") →
      toEnvironmentEnum s = "testing") := by
  refine ⟨toStateEnum_total s, toEnvironmentEnum_total s,
    fun h => ⟨toStateEnum_lower_congr h, toEnvironmentEnum_lower_congr h⟩,
    toStateEnum_unrecognized, toEnvironmentEnum_unrecognized,
    ?_, ?_, ?_, ?_, ?_, ?_, ?_, ?_, ?_, ?_⟩
  · intro h
    unfold toStateEnum stateEnumOf
    rcases h with h | h <;> rw [h] <;> decide
  · intro h
    unfold toStateEnum stateEnumOf
    rcases h with h | h <;> rw [h] <;> decide
  · intro h
    unfold toStateEnum stateEnumOf
    rcases h with h | h | h | h <;> rw [h] <;> decide
  · intro h
    unfold toStateEnum stateEnumOf
    rcases h with h | h | h | h <;> rw [h] <;> decide
  · intro h
    unfold toStateEnum stateEnumOf
    rcases h with h | h <;> rw [h] <;> decide
  · intro h
    unfold toStateEnum stateEnumOf
    rcases h with h | h <;> rw [h] <;> decide
  · intro h
    unfold toEnvironmentEnum environmentEnumOf
    rcases h with h | h <;> rw [h] <;> decide
  · intro h
    unfold toEnvironmentEnum environmentEnumOf
    rcases h with h | h <;> rw [h] <;> decide
  · intro h
    unfold toEnvironmentEnum environmentEnumOf
    rcases h with h | h <;> rw [h] <;> decide
  · intro h
    unfold toEnvironmentEnum environmentEnumOf
    rcases h with h | h <;> rw [h] <;> decide

theorem c7_normalizers_total_witness :
    toStateEnum "WAITING" = "pending" ∧
    toEnvironmentEnum "Prod" = "production" ∧
    toStateEnum "whatever" = "unknown" ∧
    toEnvironmentEnum "whatever" = "unmapped" :=
  ⟨(c7_normalizers_total "WAITING" "WAITING").2.2.2.2.2.1 (Or.inr (by decide)),
   (c7_normalizers_total "Prod" "Prod").2.2.2.2.2.2.2.2.2.2.2.1 (Or.inl (by decide)),
   (c7_normalizers_total "whatever" "whatever").2.2.2.1 (by decide),
   (c7_normalizers_total "whatever" "whatever").2.2.2.2.1 (by decide)⟩

/-- C8 counterexample: a 200 response whose JSON body lacks the
`access_token` field makes `getOauthToken` panic (the unchecked type
assertion) instead of returning an error, and a completed 100 response —
non-2xx but not above 299 — with a token yields the token rather than an
error. -/
theorem c8_counterexample :
    getOauthToken { statusCode := 200, body := some [] } = GoResult.panicked ∧
    getOauthToken { statusCode := 100, body := some [("access_token", JsonVal.str "tok")] } =
      GoResult.ok "tok" :=
  ⟨by decide, by decide⟩

/-- C8 amended: `getOauthToken` returns an error when the status exceeds
299 or the body fails to parse as JSON; when the body parses and holds a
string `access_token`, it returns that token (even for completed non-2xx
statuses at or below 299); when the parsed body lacks a string
`access_token` field, the unchecked type assertion panics instead of
returning an error. -/
theorem c8_amended (res : TokenResp) :
    (res.statusCode > 299 →
      getOauthToken res = GoResult.err ("errorCode " ++ toString res.statusCode)) ∧
    (res.statusCode ≤ 299 → res.body = none → getOauthToken res = GoResult.err "invalid json") ∧
    (∀ fields t, res.statusCode ≤ 299 → res.body = some fields →
      lookupField "access_token" fields = some (JsonVal.str t) →
      getOauthToken res = GoResult.ok t) ∧
    (∀ fields, res.statusCode ≤ 299 → res.body = some fields →
      (lookupField "access_token" fields = none ∨
        lookupField "access_token" fields = some JsonVal.other) →
      getOauthToken res = GoResult.panicked) := by
  refine ⟨?_, ?_, ?_, ?_⟩
  · intro h
    unfold getOauthToken
    rw [if_pos h]
  · intro h hbody
    unfold getOauthToken
    rw [if_neg (by omega), hbody]
  · intro fields t h hbody hfield
    unfold getOauthToken
    rw [if_neg (by omega), hbody]
    dsimp only
    rw [hfield]
  · intro fields h hbody hfield
    unfold getOauthToken
    rw [if_neg (by omega), hbody]
    dsimp only
    rcases hfield with hfield | hfield <;> rw [hfield]

theorem c8_amended_witness :
    getOauthToken { statusCode := 500, body := none } =
      GoResult.err ("errorCode " ++ toString 500) ∧
    getOauthToken { statusCode := 200, body := some [("access_token", JsonVal.str "tok")] } =
      GoResult.ok "tok" :=
  ⟨(c8_amended { statusCode := 500, body := none }).1 (by decide),
   (c8_amended { statusCode := 200, body := some [("access_token", JsonVal.str "tok")] }).2.2.1
     [("access_token", JsonVal.str "tok")] "tok" (by decide) rfl (by decide)⟩

/-- C4 counterexample: with a client id supplied but no client secret and
no connect key — a configuration in which neither credential kind is
complete — Exec does not fail before a network call: it proceeds into the
connect flow, issues the connect-token request and the build POST, and
the run completes. -/
theorem c4_counterexample :
    (ExecNet { ClientID := "some-client-id", IssueKeys := ["TEST-1"] } {}).1 =
      ExecResult.ok ∧
    (ExecNet { ClientID := "some-client-id", IssueKeys := ["TEST-1"] } {}).2 =
      [NetCall.connectTokenReq, NetCall.connectBuildPost] :=
  ⟨by decide, by decide⟩

/-- C4 amended: Exec's pre-network validation rejects only the case in
which client id, client secret and connect key are all empty; in every
other credential configuration (with a resolved issue key) the run does
not fail with the missing-credentials error, and in particular a client
id without a secret and without a connect key sends the run into the
connect flow, which issues a network request. -/
theorem c4_amended (args : Args) (w : NetWorld)
    (hIss : resolvedIssues args ≠ [])
    (hCred : ¬(args.ClientID = "" ∧ args.ClientSecret = "" ∧ args.ConnnectKey = "")) :
    (ExecNet args w).1 ≠ ExecResult.err ExecErr.missingCredentials ∧
    (args.ClientID ≠ "" → args.ClientSecret = "" → args.ConnnectKey = "" →
      (ExecNet args w).2 ≠ []) := by
  have h0 : ¬ (resolvedIssues args).length = 0 := fun hh => hIss (List.length_eq_zero.mp hh)
  unfold ExecNet
  rw [if_neg h0, if_neg hCred]
  by_cases hOauth : args.ClientID ≠ "" ∧ args.ClientSecret ≠ ""
  · rw [if_pos hOauth]
    constructor
    · rcases hc : getCloudID (ExtractInstanceName args.Instance) args.CloudID w with ⟨r, calls⟩
      cases r with
      | error e => simp
      | ok cid =>
        rcases ho : getOauthToken w.tokenResp with t | m | _
        · dsimp only
          split <;> simp
        · simp
        · simp
    · intro _ hSec _
      exact absurd hSec hOauth.2
  · rw [if_neg hOauth]
    rcases hct : getConnectToken w.connectResp with e | tok
    · dsimp only
      exact ⟨by simp, fun _ _ _ => by simp⟩
    · dsimp only
      constructor
      · split
        · split <;> simp
        · split <;> simp
      · intro _ _ _
        split
        · split <;> simp
        · split <;> simp

theorem c4_amended_witness :
    (ExecNet bothCredArgs {}).1 ≠ ExecResult.err ExecErr.missingCredentials ∧
    (ExecNet idOnlyArgs {}).2 ≠ [] :=
  ⟨(c4_amended bothCredArgs {} (by decide) (by decide)).1,
   (c4_amended idOnlyArgs {} (by decide) (by decide)).2 (by decide) rfl rfl⟩

end DroneJira
